import Mathlib

set_option linter.unusedVariables false

/-!
Shallow embedding of the dependency-graph visualizer (`stage1.py`..`stage3.py`),
centred on the stage-3 core: metadata fetch, dependency extraction, the
breadth-first graph builder, the tree renderer and the graph statistics.

Python dicts are modelled as association lists with unique keys, preserving
insertion order; Python sets as duplicate-free lists; Python exceptions as
`Except`.  Machine details (HTTP transport, the filesystem) are abstracted as
explicit function/`Option` parameters standing for the data the code reads.
-/

namespace MireaConf

/-- One entry of the `versions` table of an npm metadata record: the four
per-version name-to-spec dependency dicts read by `extract_dependencies`
(`dependencies`, `devDependencies`, `peerDependencies`, `optionalDependencies`).
Only the keys are ever interpreted by the code; values are the raw spec
strings. -/
structure VersionInfo where
  dependencies : List (String × String)
  devDependencies : List (String × String)
  peerDependencies : List (String × String)
  optionalDependencies : List (String × String)
deriving DecidableEq, Repr

/-- A raw package metadata record as consumed by the code: the `versions`
dict and the `dist-tags.latest` entry.  `distTagsLatest = none` models a
record with no `dist-tags` dict or no `latest` key in it (both make
`package_info.get('dist-tags', {}).get('latest', d)` return the default `d`).
A version whose record is a falsy (empty) dict behaves in the source exactly
like an absent version key (`versions.get(v, {})` followed by
`if not version_info`), so such versions are modelled as absent.  The `name`
field of real records is never read and is omitted. -/
structure PackageInfo where
  versions : List (String × VersionInfo)
  distTagsLatest : Option String
deriving DecidableEq, Repr

/-- The validated configuration fields the core reads: `package_name`,
`version` (default `"latest"`), `filter_substring` (default `""`). -/
structure Config where
  package_name : String
  version : String
  filter_substring : String
deriving DecidableEq, Repr

/-- `DependencyFetchError` of `stage2.py`/`stage3.py` (message payload only). -/
structure DependencyFetchError where
  message : String
deriving DecidableEq, Repr

/-- Python `d.get(k)` on the assoc-list model of a dict (keys are unique,
so first match wins). -/
def lookupA {α : Type} : List (String × α) → String → Option α
  | [], _ => none
  | (k, v) :: rest, key => if k = key then some v else lookupA rest key

/-- Python `d.get(k, dflt)`. -/
def dictGet {α : Type} (d : List (String × α)) (key : String) (dflt : α) : α :=
  (lookupA d key).getD dflt

/-- Python dict assignment `d[k] = v`: overwrite in place when `k` is already
a key, append otherwise. -/
def dictInsert {α : Type} (d : List (String × α)) (key : String) (v : α) :
    List (String × α) :=
  if d.any (fun p => p.1 == key) then
    d.map (fun p => if p.1 = key then (key, v) else p)
  else d ++ [(key, v)]

/-- Python `keys()` of a dict. -/
def dictKeys {α : Type} (d : List (String × α)) : List String := d.map Prod.fst

/-- Python `s.add(x)` on the list model of a set: never appends a duplicate. -/
def setAdd (s : List String) (x : String) : List String :=
  if x ∈ s then s else s ++ [x]

/-- Python `needle in hay` for character lists: `needle` occurs as a
contiguous substring of `hay` (an empty needle always occurs). -/
def subIn (needle : List Char) : List Char → Bool
  | [] => needle.isEmpty
  | c :: rest => needle.isPrefixOf (c :: rest) || subIn needle rest

/-- Python `needle.lower() in hay.lower()` — the case-insensitive substring
test both staged filters are built from.  Lowering is performed character by
character (`String.toLower` maps `Char.toLower` over the string). -/
def lowerIn (needle hay : String) : Bool :=
  subIn (needle.data.map Char.toLower) (hay.data.map Char.toLower)

/-- `DependencyVisualizer.extract_dependencies` from `stage3.py`
(lines 96-146).  `list(set(...))` followed by `sorted(...)` produces the
ascending enumeration of the deduplicated name set, which is modelled by
`List.dedup` followed by insertion sort under `String`'s code-point
lexicographic order (Python's `sorted` on `str`). -/
def extract_dependencies (config : Config) (package_info : PackageInfo) :
    List String :=
  let version := config.version
  let target_version :=
    if version = "latest" then package_info.distTagsLatest.getD "1.0.0"
    else version
  let version_info? :=
    match lookupA package_info.versions target_version with
    | some vi => some vi
    | none =>
      -- version not found: take the first available one, if any
      match package_info.versions with
      | [] => none
      | (_, vi) :: _ => some vi
  match version_info? with
  | none => []
  | some version_info =>
    let dependencies :=
      dictKeys version_info.dependencies ++
      dictKeys version_info.devDependencies ++
      dictKeys version_info.peerDependencies ++
      dictKeys version_info.optionalDependencies
    let unique_dependencies := dependencies.dedup
    let filter_substring := config.filter_substring
    let unique_dependencies :=
      if filter_substring ≠ "" then
        unique_dependencies.filter (fun dep => ! lowerIn filter_substring dep)
      else unique_dependencies
    List.insertionSort (fun a b => a.data ≤ b.data) unique_dependencies

/-- `DependencyVisualizer.extract_dependencies` from `stage2.py`
(lines 185-242): the earlier variant.  It raises on a missing version instead
of falling back, resolves a falsy `latest` tag to the last version key, and —
unlike stage 3 — its filter KEEPS exactly the names containing the configured
substring (`if filter_substring.lower() in dep.lower()`). -/
def stage2_extract_dependencies (config : Config) (package_info : PackageInfo) :
    Except DependencyFetchError (List String) :=
  let version := config.version
  let target_version? : Except DependencyFetchError String :=
    if version = "latest" then
      let tv := package_info.distTagsLatest.getD ""
      if tv = "" then
        match (dictKeys package_info.versions).getLast? with
        | none => .error ⟨"Не найдено ни одной версии пакета"⟩
        | some v => .ok v
      else .ok tv
    else .ok version
  match target_version? with
  | .error e => .error e
  | .ok target_version =>
    match lookupA package_info.versions target_version with
    | none => .error ⟨"Версия не найдена"⟩
    | some version_info =>
      let dependencies :=
        dictKeys version_info.dependencies ++
        dictKeys version_info.devDependencies ++
        dictKeys version_info.peerDependencies ++
        dictKeys version_info.optionalDependencies
      let unique_dependencies := dependencies.dedup
      let filter_substring := config.filter_substring
      let unique_dependencies :=
        if filter_substring ≠ "" then
          unique_dependencies.filter (fun dep => lowerIn filter_substring dep)
        else unique_dependencies
      .ok (List.insertionSort (fun a b => a.data ≤ b.data) unique_dependencies)

/-- Abstract outcome of the HTTP request `_get_real_package_info` makes for a
given name: parsed body on success, 404, another HTTP error, or any other
transport/parse failure. -/
inductive RegistryResponse where
  | ok (info : PackageInfo)
  | notFound
  | httpError (code : Nat) (reason : String)
  | failure (message : String)
deriving DecidableEq, Repr

/-- `DependencyVisualizer._get_real_package_info` from `stage3.py`
(lines 52-70), over an abstract registry: every non-success response becomes a
`DependencyFetchError`. -/
def get_real_package_info (registry : String → RegistryResponse)
    (package_name : String) : Except DependencyFetchError PackageInfo :=
  match registry package_name with
  | .ok info => .ok info
  | .notFound =>
    .error ⟨"Пакет '" ++ package_name ++ "' не найден в npm registry. Проверьте имя пакета."⟩
  | .httpError _ _ => .error ⟨"HTTP ошибка для пакета '" ++ package_name ++ "'"⟩
  | .failure _ => .error ⟨"Ошибка получения пакета '" ++ package_name ++ "'"⟩

/-- The synthetic record `_get_test_package_info` fabricates for a package
name absent from the fixture file:
`{"versions": {"1.0.0": {"dependencies": {}}}, "dist-tags": {"latest": "1.0.0"}}`
(its `name` field is never read and is not modelled). -/
def defaultTestRecord : PackageInfo :=
  { versions := [("1.0.0",
      { dependencies := [], devDependencies := [],
        peerDependencies := [], optionalDependencies := [] })],
    distTagsLatest := some "1.0.0" }

/-- `DependencyVisualizer._get_test_package_info` from `stage3.py`
(lines 72-94).  `test_data = none` models an unreadable or malformed fixture
file (the `except` branch); a known name returns its record; an unknown name
returns the synthetic default record — it does NOT raise. -/
def get_test_package_info (test_data : Option (List (String × PackageInfo)))
    (package_name : String) : Except DependencyFetchError PackageInfo :=
  match test_data with
  | none => .error ⟨"Ошибка чтения тестового файла"⟩
  | some data =>
    match lookupA data package_name with
    | some info => .ok info
    | none => .ok defaultTestRecord

/-- `DependencyVisualizer.get_npm_package_info` from `stage3.py`
(lines 46-50): dispatch on `test_repository_mode`. -/
def get_npm_package_info (test_repository_mode : Bool)
    (registry : String → RegistryResponse)
    (test_data : Option (List (String × PackageInfo)))
    (package_name : String) : Except DependencyFetchError PackageInfo :=
  if test_repository_mode then get_test_package_info test_data package_name
  else get_real_package_info registry package_name

/-- The four traversal structures `build_dependency_graph_bfs` mutates, plus
the work queue (`collections.deque`, head = front). -/
structure BuildState where
  dependency_graph : List (String × List String)
  visited_packages : List String
  package_depths : List (String × Nat)
  queue : List (String × Nat)
deriving DecidableEq, Repr

/-- The state touched by the inner `for dep in dependencies` loop. -/
structure EnqueueState where
  visited_packages : List String
  package_depths : List (String × Nat)
  queue : List (String × Nat)
deriving DecidableEq, Repr

/-- The inner `for dep in dependencies` loop of `build_dependency_graph_bfs`
(`stage3.py` lines 181-189): a dependency is admitted when it is unvisited and
the visited set is still below `max_packages`; admission adds it to the
visited set, records its depth, and enqueues it at `current_depth + 1`.
(The source re-checks `dep not in self.visited_packages` inside the guarded
block; the re-check is identically true and is collapsed here.) -/
def enqueueDeps (maxPackages current_depth : Nat) :
    List String → EnqueueState → EnqueueState
  | [], e => e
  | dep :: rest, e =>
    if dep ∉ e.visited_packages ∧ e.visited_packages.length < maxPackages then
      enqueueDeps maxPackages current_depth rest
        { visited_packages := setAdd e.visited_packages dep,
          package_depths := dictInsert e.package_depths dep (current_depth + 1),
          queue := e.queue ++ [(dep, current_depth + 1)] }
    else
      enqueueDeps maxPackages current_depth rest e

/-- One iteration of the `while` body of `build_dependency_graph_bfs`
(`stage3.py` lines 165-196), after `(current_package, current_depth)` has been
popped and `rest` is the remaining queue: fetch, extract, store into
`dependency_graph`, and enqueue children only when `current_depth < max_depth`;
a `DependencyFetchError` stores an empty list instead and nothing else. -/
def bfsStep (fetch : String → Except DependencyFetchError PackageInfo)
    (config : Config) (maxDepth maxPackages : Nat)
    (current_package : String) (current_depth : Nat)
    (rest : List (String × Nat)) (st : BuildState) : BuildState :=
  match fetch current_package with
  | .error _ =>
    { st with
      dependency_graph := dictInsert st.dependency_graph current_package [],
      queue := rest }
  | .ok package_info =>
    let dependencies := extract_dependencies config package_info
    let graph' := dictInsert st.dependency_graph current_package dependencies
    if current_depth < maxDepth then
      let e := enqueueDeps maxPackages current_depth dependencies
        { visited_packages := st.visited_packages,
          package_depths := st.package_depths, queue := rest }
      { dependency_graph := graph', visited_packages := e.visited_packages,
        package_depths := e.package_depths, queue := e.queue }
    else
      { st with dependency_graph := graph', queue := rest }

/-- The `while queue and len(self.visited_packages) < max_packages` loop of
`build_dependency_graph_bfs`, written with explicit fuel so that it is
structurally recursive and computable.  `bfs_fuel_sufficient` below proves
that with the fuel used by `build_dependency_graph_bfs` the recursion always
ends because the `while` condition fails, never because fuel runs out, so the
embedding is faithful to the unbounded Python loop. -/
def bfsLoop (fetch : String → Except DependencyFetchError PackageInfo)
    (config : Config) (maxDepth maxPackages : Nat) :
    Nat → BuildState → BuildState
  | 0, st => st
  | fuel + 1, st =>
    match st.queue with
    | [] => st
    | (current_package, current_depth) :: rest =>
      if st.visited_packages.length < maxPackages then
        bfsLoop fetch config maxDepth maxPackages fuel
          (bfsStep fetch config maxDepth maxPackages current_package
            current_depth rest st)
      else st

/-- `max_depth = 4` (`stage3.py` line 156). -/
def MAX_DEPTH : Nat := 4

/-- `max_packages = 300` (`stage3.py` line 157). -/
def MAX_PACKAGES : Nat := 300

/-- `DependencyVisualizer.build_dependency_graph_bfs` from `stage3.py`
(lines 148-198).  `fetch` stands for `self.get_npm_package_info`
(instantiate with `get_npm_package_info mode registry test_data`).  The loop
performs at most `MAX_PACKAGES` iterations (see `bfs_fuel_sufficient`), so
`MAX_PACKAGES` fuel makes the fuelled loop agree with the source's `while`. -/
def build_dependency_graph_bfs
    (fetch : String → Except DependencyFetchError PackageInfo)
    (config : Config) : BuildState :=
  let start_package := config.package_name
  bfsLoop fetch config MAX_DEPTH MAX_PACKAGES MAX_PACKAGES
    { dependency_graph := [],
      visited_packages := [start_package],
      package_depths := [(start_package, 0)],
      queue := [(start_package, 0)] }

/-- Pointwise implication between Boolean predicates can only shrink the
number of kept elements. -/
theorem length_filter_le_of_imp {α : Type} (l : List α) (p q : α → Bool)
    (h : ∀ x, q x = true → p x = true) :
    (l.filter q).length ≤ (l.filter p).length := by
  induction l with
  | nil => simp
  | cons a t ih =>
    cases hq : q a with
    | true =>
      rw [List.filter_cons_of_pos hq, List.filter_cons_of_pos (h a hq)]
      simpa using ih
    | false =>
      rw [List.filter_cons_of_neg (by simp [hq])]
      cases hp : p a with
      | true =>
        rw [List.filter_cons_of_pos hp, List.length_cons]
        exact Nat.le_succ_of_le ih
      | false =>
        rw [List.filter_cons_of_neg (by simp [hp])]
        exact ih

/-- The kept-element count drops strictly when some list element moves from
kept to dropped and no element moves the other way. -/
theorem length_filter_lt_of_mem {α : Type} (l : List α) (p q : α → Bool)
    (h : ∀ x, q x = true → p x = true) (a : α) (ha : a ∈ l)
    (hpa : p a = true) (hqa : q a = false) :
    (l.filter q).length < (l.filter p).length := by
  induction l with
  | nil => cases ha
  | cons b t ih =>
    rcases List.mem_cons.mp ha with rfl | hat
    · rw [List.filter_cons_of_pos hpa, List.filter_cons_of_neg (by simp [hqa]),
        List.length_cons]
      exact Nat.lt_succ_of_le (length_filter_le_of_imp t p q h)
    · have hlt := ih hat
      cases hq : q b with
      | true =>
        rw [List.filter_cons_of_pos hq, List.filter_cons_of_pos (h b hq)]
        simpa using hlt
      | false =>
        rw [List.filter_cons_of_neg (by simp [hq])]
        cases hp : p b with
        | true =>
          rw [List.filter_cons_of_pos hp, List.length_cons]
          exact Nat.lt_succ_of_lt hlt
        | false =>
          rw [List.filter_cons_of_neg (by simp [hp])]
          exact hlt

/-- A successful dict lookup means the key is present. -/
theorem lookupA_mem_keys {α : Type} (d : List (String × α)) (k : String)
    (v : α) (h : lookupA d k = some v) : k ∈ dictKeys d := by
  induction d with
  | nil => simp [lookupA] at h
  | cons p rest ih =>
    by_cases hk : p.1 = k
    · simp [dictKeys, hk]
    · obtain ⟨k', v'⟩ := p
      simp only at hk
      simp only [lookupA, if_neg hk] at h
      simpa [dictKeys] using Or.inr (ih h)

/-- Entering a node that is a key of the graph strictly shrinks the set of
graph keys not yet on the current branch — the renderer's termination
measure. -/
theorem visited_measure_lt (graph : List (String × List String))
    (visited : List String) (package : String)
    (hmem : package ∈ dictKeys graph) (hnv : package ∉ visited) :
    ((dictKeys graph).filter (fun k => decide (k ∉ visited ++ [package]))).length <
      ((dictKeys graph).filter (fun k => decide (k ∉ visited))).length := by
  refine length_filter_lt_of_mem _ _ _ ?_ package hmem ?_ ?_
  · intro x hx
    simp only [decide_eq_true_iff, List.mem_append, List.mem_singleton] at hx ⊢
    exact fun hxv => hx (Or.inl hxv)
  · simpa using hnv
  · simp

/-- `dictGet` returns something other than its default only on present keys. -/
theorem dictGet_ne_default_mem_keys (graph : List (String × List String))
    (package : String) (h : dictGet graph package [] ≠ []) :
    package ∈ dictKeys graph := by
  unfold dictGet at h
  cases hl : lookupA graph package with
  | none => rw [hl] at h; simp at h
  | some v => exact lookupA_mem_keys _ _ _ hl

mutual

/-- `DependencyVisualizer._build_pretty_tree_limited` from `stage3.py`
(lines 221-246).  `visited` is the per-branch set: the Python code mutates
its own copy (`visited.add(package)`) and hands each child
`visited.copy()`, so every child receives the same set
`visited ∪ {package}`, modelled by passing `visited ++ [package]`.  A node
already on the branch renders as the single terminal line
`prefix + "└── " + package + " [ЦИКЛ]"`.  The `for`-loop over the stored
dependency list (empty when the package has no graph entry) is
`renderChildren`; the loop body's `is_last_dep = (i == len(dependencies)-1)`
is `rest.isEmpty`.  The commented-out depth cut-off in the source is dead
code and is not modelled. -/
def build_pretty_tree_limited (graph : List (String × List String))
    (package : String) (pfx : String) (is_last : Bool)
    (visited : List String) : List String :=
  if hv : package ∈ visited then
    [pfx ++ "└── " ++ package ++ " [ЦИКЛ]"]
  else
    let current_pfx := if is_last then "└── " else "├── "
    let new_pfx := pfx ++ (if is_last then "    " else "│   ")
    match hd : dictGet graph package [] with
    | [] => [pfx ++ current_pfx ++ package]
    | dep :: rest =>
      (pfx ++ current_pfx ++ package) ::
        renderChildren graph (dep :: rest) new_pfx (visited ++ [package])
termination_by
  (((dictKeys graph).filter (fun k => decide (k ∉ visited))).length, 0)
decreasing_by
  apply Prod.Lex.left
  exact visited_measure_lt graph visited package
    (dictGet_ne_default_mem_keys graph package (by rw [hd]; simp)) hv

/-- The `for i, dep in enumerate(dependencies)` loop of
`_build_pretty_tree_limited`: renders each child subtree in order and
concatenates the line blocks. -/
def renderChildren (graph : List (String × List String))
    (deps : List String) (new_pfx : String) (visited : List String) :
    List String :=
  match deps with
  | [] => []
  | dep :: rest =>
    build_pretty_tree_limited graph dep new_pfx rest.isEmpty visited ++
      renderChildren graph rest new_pfx visited
termination_by
  (((dictKeys graph).filter (fun k => decide (k ∉ visited))).length,
    deps.length + 1)
decreasing_by
  · apply Prod.Lex.right
    simp only [List.length_cons]
    omega
  · apply Prod.Lex.right
    simp only [List.length_cons]
    omega

end

theorem dictKeys_append {α : Type} (d₁ d₂ : List (String × α)) :
    dictKeys (d₁ ++ d₂) = dictKeys d₁ ++ dictKeys d₂ := by
  simp [dictKeys]

/-- Writing a fresh key into a dict appends a new entry. -/
theorem dictInsert_of_not_mem {α : Type} (d : List (String × α)) (key : String)
    (v : α) (h : key ∉ dictKeys d) : dictInsert d key v = d ++ [(key, v)] := by
  unfold dictInsert
  rw [if_neg]
  intro hc
  rw [List.any_eq_true] at hc
  obtain ⟨p, hp, hpk⟩ := hc
  rw [beq_iff_eq] at hpk
  exact h (List.mem_map.mpr ⟨p, hp, hpk⟩)

/-- Adding a fresh element to a set appends it. -/
theorem setAdd_of_not_mem (s : List String) (x : String) (h : x ∉ s) :
    setAdd s x = s ++ [x] := by
  unfold setAdd
  rw [if_neg h]

/-- When every dependency is fresh and the cap is not hit, the inner loop
admits all of them, in order. -/
theorem enqueueDeps_all (maxP cd : Nat) (deps : List String) (e : EnqueueState)
    (hnd : deps.Nodup)
    (hfresh : ∀ x ∈ deps, x ∉ e.visited_packages)
    (hdk : dictKeys e.package_depths = e.visited_packages)
    (hcap : e.visited_packages.length + deps.length ≤ maxP) :
    enqueueDeps maxP cd deps e =
      { visited_packages := e.visited_packages ++ deps,
        package_depths := e.package_depths ++ deps.map (fun x => (x, cd + 1)),
        queue := e.queue ++ deps.map (fun x => (x, cd + 1)) } := by
  induction deps generalizing e with
  | nil => simp [enqueueDeps]
  | cons dep rest ih =>
    have hdep_nv : dep ∉ e.visited_packages := hfresh dep (by simp)
    have hlen : e.visited_packages.length < maxP := by
      simp only [List.length_cons] at hcap
      omega
    rw [enqueueDeps, if_pos ⟨hdep_nv, hlen⟩]
    rw [setAdd_of_not_mem _ _ hdep_nv,
      dictInsert_of_not_mem _ _ _ (hdk ▸ hdep_nv)]
    rw [ih]
    · simp
    · exact hnd.of_cons
    · intro x hx
      simp only [List.mem_append, List.mem_singleton]
      rintro (hxv | rfl)
      · exact hfresh x (List.mem_cons_of_mem _ hx) hxv
      · exact (List.nodup_cons.mp hnd).1 hx
    · rw [dictKeys_append, hdk]
      simp [dictKeys]
    · simp at hcap ⊢
      omega

/-- The inner loop never pushes the visited set past the cap, and it
preserves the loop measure `maxP - |visited| + |queue|`. -/
theorem enqueueDeps_measure (maxP cd : Nat) (deps : List String)
    (e : EnqueueState) (hle : e.visited_packages.length ≤ maxP) :
    (enqueueDeps maxP cd deps e).visited_packages.length ≤ maxP ∧
    maxP - (enqueueDeps maxP cd deps e).visited_packages.length +
        (enqueueDeps maxP cd deps e).queue.length =
      maxP - e.visited_packages.length + e.queue.length := by
  induction deps generalizing e with
  | nil => exact ⟨hle, rfl⟩
  | cons dep rest ih =>
    rw [enqueueDeps]
    by_cases hc : dep ∉ e.visited_packages ∧ e.visited_packages.length < maxP
    · rw [if_pos hc]
      have h1 : (setAdd e.visited_packages dep).length =
          e.visited_packages.length + 1 := by
        rw [setAdd_of_not_mem _ _ hc.1]
        simp
      obtain ⟨ha, hb⟩ := ih
        { visited_packages := setAdd e.visited_packages dep,
          package_depths := dictInsert e.package_depths dep (cd + 1),
          queue := e.queue ++ [(dep, cd + 1)] } (by rw [h1]; omega)
      refine ⟨ha, ?_⟩
      rw [hb]
      simp only [h1, List.length_append, List.length_singleton]
      omega
    · rw [if_neg hc]
      exact ih e hle

/-- Once the visited set has reached the cap, the loop does nothing more. -/
theorem bfsLoop_stop (fetch : String → Except DependencyFetchError PackageInfo)
    (config : Config) (maxD maxP fuel : Nat) (st : BuildState)
    (h : ¬ st.visited_packages.length < maxP) :
    bfsLoop fetch config maxD maxP fuel st = st := by
  cases fuel with
  | zero => rfl
  | succ n =>
    rw [bfsLoop]
    cases hq : st.queue with
    | nil => rfl
    | cons head rest =>
      obtain ⟨cp, cd⟩ := head
      exact if_neg h

/-- One loop iteration keeps `|visited| ≤ maxP` and decreases the measure
`maxP - |visited| + |queue|` by exactly one. -/
theorem bfsStep_measure (fetch : String → Except DependencyFetchError PackageInfo)
    (config : Config) (maxD maxP : Nat) (cp : String) (cd : Nat)
    (rest : List (String × Nat)) (st : BuildState)
    (hq : st.queue = (cp, cd) :: rest)
    (hlt : st.visited_packages.length < maxP) :
    (bfsStep fetch config maxD maxP cp cd rest st).visited_packages.length ≤ maxP ∧
    maxP - (bfsStep fetch config maxD maxP cp cd rest st).visited_packages.length +
        (bfsStep fetch config maxD maxP cp cd rest st).queue.length + 1 =
      maxP - st.visited_packages.length + st.queue.length := by
  unfold bfsStep
  cases hf : fetch cp with
  | error err =>
    refine ⟨Nat.le_of_lt hlt, ?_⟩
    simp only [hq, List.length_cons]
    omega
  | ok package_info =>
    dsimp only
    by_cases hd : cd < maxD
    · rw [if_pos hd]
      obtain ⟨ha, hb⟩ := enqueueDeps_measure maxP cd
        (extract_dependencies config package_info)
        { visited_packages := st.visited_packages,
          package_depths := st.package_depths, queue := rest }
        (Nat.le_of_lt hlt)
      refine ⟨ha, ?_⟩
      simp only at hb
      simp only [hb, hq, List.length_cons]
      omega
    · rw [if_neg hd]
      refine ⟨Nat.le_of_lt hlt, ?_⟩
      simp only [hq, List.length_cons]
      omega

/-- With fuel at least the measure `maxP - |visited| + |queue|`, the fuelled
loop halts only because the `while` condition fails: it ends with an empty
queue or a visited set at the cap (and the visited set never exceeds the
cap). -/
theorem bfsLoop_fuel (fetch : String → Except DependencyFetchError PackageInfo)
    (config : Config) (maxD maxP : Nat) :
    ∀ fuel (st : BuildState), st.visited_packages.length ≤ maxP →
      maxP - st.visited_packages.length + st.queue.length ≤ fuel →
      ((bfsLoop fetch config maxD maxP fuel st).queue = [] ∨
        maxP ≤ (bfsLoop fetch config maxD maxP fuel st).visited_packages.length) ∧
      (bfsLoop fetch config maxD maxP fuel st).visited_packages.length ≤ maxP := by
  intro fuel
  induction fuel with
  | zero =>
    intro st h1 h2
    have hq : st.queue = [] := by
      rw [List.length_eq_zero.symm]
      omega
    exact ⟨Or.inl hq, h1⟩
  | succ n ih =>
    intro st h1 h2
    rw [bfsLoop]
    cases hq : st.queue with
    | nil => exact ⟨Or.inl hq, h1⟩
    | cons head rest =>
      obtain ⟨cp, cd⟩ := head
      dsimp only
      by_cases hlt : st.visited_packages.length < maxP
      · rw [if_pos hlt]
        obtain ⟨ha, hb⟩ := bfsStep_measure fetch config maxD maxP cp cd rest st hq hlt
        refine ih _ ha ?_
        omega
      · rw [if_neg hlt]
        exact ⟨Or.inr (Nat.le_of_not_lt hlt), h1⟩

/-- Moving the head of a duplicate-free bundle to the back keeps it
duplicate-free. -/
theorem nodup_shuffle (a : String) (l₁ l₂ : List String)
    (h : (a :: (l₁ ++ l₂)).Nodup) : (l₁ ++ (l₂ ++ [a])).Nodup := by
  rw [← List.append_assoc]
  exact ((List.perm_append_singleton a (l₁ ++ l₂)).nodup_iff).mpr h

/-- The invariant `build_dependency_graph_bfs` maintains across loop
iterations: the visited set is duplicate-free and is exactly the disjoint
union of the queued packages and the graph keys; the depth map enumerates the
visited set in discovery order; every enqueued pair and every recorded depth
is at most `maxD`; and a package whose fetch fails can only be stored with an
empty list. -/
structure BuildInv (fetch : String → Except DependencyFetchError PackageInfo)
    (maxD : Nat) (st : BuildState) : Prop where
  visited_nodup : st.visited_packages.Nodup
  keys_nodup : (dictKeys st.queue ++ dictKeys st.dependency_graph).Nodup
  visited_cover : ∀ p, p ∈ st.visited_packages ↔
    p ∈ dictKeys st.queue ∨ p ∈ dictKeys st.dependency_graph
  depths_eq : dictKeys st.package_depths = st.visited_packages
  queue_le : ∀ pd ∈ st.queue, pd.2 ≤ maxD
  depths_le : ∀ pd ∈ st.package_depths, pd.2 ≤ maxD
  err_graph : ∀ pl ∈ st.dependency_graph, ∀ err, fetch pl.1 = .error err →
    pl.2 = []

/-- The inner loop preserves every component of the invariant, for a fixed
key set `G` of the already-stored graph. -/
theorem enqueueDeps_inv (maxD maxP cd : Nat) (deps : List String)
    (e : EnqueueState) (G : List String)
    (hvn : e.visited_packages.Nodup)
    (hkn : (dictKeys e.queue ++ G).Nodup)
    (hcov : ∀ p, p ∈ e.visited_packages ↔ p ∈ dictKeys e.queue ∨ p ∈ G)
    (hdk : dictKeys e.package_depths = e.visited_packages)
    (hql : ∀ pd ∈ e.queue, pd.2 ≤ maxD)
    (hdl : ∀ pd ∈ e.package_depths, pd.2 ≤ maxD)
    (hcd : cd + 1 ≤ maxD) :
    (enqueueDeps maxP cd deps e).visited_packages.Nodup ∧
    (dictKeys (enqueueDeps maxP cd deps e).queue ++ G).Nodup ∧
    (∀ p, p ∈ (enqueueDeps maxP cd deps e).visited_packages ↔
      p ∈ dictKeys (enqueueDeps maxP cd deps e).queue ∨ p ∈ G) ∧
    dictKeys (enqueueDeps maxP cd deps e).package_depths =
      (enqueueDeps maxP cd deps e).visited_packages ∧
    (∀ pd ∈ (enqueueDeps maxP cd deps e).queue, pd.2 ≤ maxD) ∧
    (∀ pd ∈ (enqueueDeps maxP cd deps e).package_depths, pd.2 ≤ maxD) := by
  induction deps generalizing e with
  | nil =>
    rw [enqueueDeps]
    exact ⟨hvn, hkn, hcov, hdk, hql, hdl⟩
  | cons dep rest ih =>
    rw [enqueueDeps]
    by_cases hc : dep ∉ e.visited_packages ∧ e.visited_packages.length < maxP
    · rw [if_pos hc]
      have hdn_q : dep ∉ dictKeys e.queue :=
        fun hmem => hc.1 ((hcov dep).mpr (Or.inl hmem))
      have hdn_G : dep ∉ G := fun hmem => hc.1 ((hcov dep).mpr (Or.inr hmem))
      have hdk_d : dep ∉ dictKeys e.package_depths := by
        rw [hdk]; exact hc.1
      rw [setAdd_of_not_mem _ _ hc.1, dictInsert_of_not_mem _ _ _ hdk_d]
      apply ih
      · simp only [List.nodup_append, List.nodup_singleton, true_and]
        refine ⟨hvn, ?_⟩
        intro x hx
        simp only [List.mem_singleton]
        intro hxd
        exact hc.1 (hxd ▸ hx)
      · rw [dictKeys_append]
        have hshape : (dictKeys e.queue ++ dictKeys [(dep, cd + 1)]) ++ G =
            dictKeys e.queue ++ (dep :: G) := by
          simp [dictKeys]
        rw [hshape, List.nodup_middle]
        rw [List.nodup_cons]
        exact ⟨by simp [hdn_q, hdn_G], hkn⟩
      · intro p
        rw [dictKeys_append]
        have hx := hcov p
        simp only [List.mem_append, List.mem_singleton, dictKeys,
          List.map_cons, List.map_nil] at hx ⊢
        tauto
      · rw [dictKeys_append, hdk]
        simp [dictKeys]
      · intro pd hpd
        rcases List.mem_append.mp hpd with hl | hr
        · exact hql pd hl
        · rw [List.mem_singleton] at hr
          rw [hr]
          exact hcd
      · intro pd hpd
        rcases List.mem_append.mp hpd with hl | hr
        · exact hdl pd hl
        · rw [List.mem_singleton] at hr
          rw [hr]
          exact hcd
    · rw [if_neg hc]
      exact ih e hvn hkn hcov hdk hql hdl

/-- One loop iteration preserves the invariant. -/
theorem bfsStep_inv (fetch : String → Except DependencyFetchError PackageInfo)
    (config : Config) (maxD maxP : Nat) (cp : String) (cd : Nat)
    (rest : List (String × Nat)) (st : BuildState)
    (hq : st.queue = (cp, cd) :: rest)
    (inv : BuildInv fetch maxD st) :
    BuildInv fetch maxD (bfsStep fetch config maxD maxP cp cd rest st) := by
  have hkq : dictKeys st.queue = cp :: dictKeys rest := by
    rw [hq]; rfl
  have h0 : (cp :: (dictKeys rest ++ dictKeys st.dependency_graph)).Nodup := by
    have := inv.keys_nodup
    rw [hkq] at this
    simpa using this
  have hcp_notin : cp ∉ dictKeys rest ++ dictKeys st.dependency_graph :=
    (List.nodup_cons.mp h0).1
  have htail_nodup : (dictKeys rest ++ dictKeys st.dependency_graph).Nodup :=
    (List.nodup_cons.mp h0).2
  have hcp_g : cp ∉ dictKeys st.dependency_graph := by
    intro hmem
    exact hcp_notin (List.mem_append.mpr (Or.inr hmem))
  have hcp_r : cp ∉ dictKeys rest := by
    intro hmem
    exact hcp_notin (List.mem_append.mpr (Or.inl hmem))
  have hcd_le : cd ≤ maxD := inv.queue_le (cp, cd) (by rw [hq]; simp)
  have hcov' : ∀ p, p ∈ st.visited_packages ↔
      p ∈ dictKeys rest ∨ p ∈ dictKeys st.dependency_graph ++ [cp] := by
    intro p
    have := inv.visited_cover p
    rw [hkq] at this
    simp only [List.mem_cons, List.mem_append, List.mem_singleton] at this ⊢
    tauto
  have hql' : ∀ pd ∈ rest, pd.2 ≤ maxD := by
    intro pd hpd
    exact inv.queue_le pd (by rw [hq]; exact List.mem_cons_of_mem _ hpd)
  unfold bfsStep
  cases hf : fetch cp with
  | error err =>
    refine ⟨inv.visited_nodup, ?_, ?_, inv.depths_eq, hql', inv.depths_le, ?_⟩
    · dsimp only
      rw [dictInsert_of_not_mem _ _ _ hcp_g, dictKeys_append]
      exact nodup_shuffle cp _ _ h0
    · intro p
      dsimp only
      rw [dictInsert_of_not_mem _ _ _ hcp_g, dictKeys_append]
      have := hcov' p
      simpa [dictKeys] using this
    · intro pl hpl err' herr
      dsimp only at hpl
      rw [dictInsert_of_not_mem _ _ _ hcp_g] at hpl
      rcases List.mem_append.mp hpl with hl | hr
      · exact inv.err_graph pl hl err' herr
      · rw [List.mem_singleton] at hr
        rw [hr]
  | ok package_info =>
    dsimp only
    by_cases hd : cd < maxD
    · rw [if_pos hd]
      have hkn_e : (dictKeys rest ++
          (dictKeys st.dependency_graph ++ [cp])).Nodup :=
        nodup_shuffle cp _ _ h0
      obtain ⟨i1, i2, i3, i4, i5, i6⟩ := enqueueDeps_inv maxD maxP cd
        (extract_dependencies config package_info)
        { visited_packages := st.visited_packages,
          package_depths := st.package_depths, queue := rest }
        (dictKeys st.dependency_graph ++ [cp])
        inv.visited_nodup hkn_e hcov' inv.depths_eq hql' inv.depths_le hd
      have hgk : dictKeys (dictInsert st.dependency_graph cp
          (extract_dependencies config package_info)) =
          dictKeys st.dependency_graph ++ [cp] := by
        rw [dictInsert_of_not_mem _ _ _ hcp_g, dictKeys_append]
        rfl
      refine ⟨i1, ?_, ?_, i4, i5, i6, ?_⟩
      · rw [hgk]
        exact i2
      · intro p
        rw [hgk]
        exact i3 p
      · intro pl hpl err' herr
        rw [dictInsert_of_not_mem _ _ _ hcp_g] at hpl
        rcases List.mem_append.mp hpl with hl | hr
        · exact inv.err_graph pl hl err' herr
        · rw [List.mem_singleton] at hr
          rw [hr] at herr
          rw [hf] at herr
          cases herr
    · rw [if_neg hd]
      refine ⟨inv.visited_nodup, ?_, ?_, inv.depths_eq, hql',
        inv.depths_le, ?_⟩
      · rw [dictInsert_of_not_mem _ _ _ hcp_g, dictKeys_append]
        exact nodup_shuffle cp _ _ h0
      · intro p
        rw [dictInsert_of_not_mem _ _ _ hcp_g, dictKeys_append]
        have := hcov' p
        simpa [dictKeys] using this
      · intro pl hpl err' herr
        rw [dictInsert_of_not_mem _ _ _ hcp_g] at hpl
        rcases List.mem_append.mp hpl with hl | hr
        · exact inv.err_graph pl hl err' herr
        · rw [List.mem_singleton] at hr
          rw [hr] at herr
          rw [hf] at herr
          cases herr

/-- The fuelled loop preserves the invariant. -/
theorem bfsLoop_inv (fetch : String → Except DependencyFetchError PackageInfo)
    (config : Config) (maxD maxP : Nat) :
    ∀ fuel (st : BuildState), BuildInv fetch maxD st →
      BuildInv fetch maxD (bfsLoop fetch config maxD maxP fuel st) := by
  intro fuel
  induction fuel with
  | zero => intro st h; exact h
  | succ n ih =>
    intro st h
    rw [bfsLoop]
    cases hq : st.queue with
    | nil => exact h
    | cons head rest =>
      obtain ⟨cp, cd⟩ := head
      dsimp only
      by_cases hlt : st.visited_packages.length < maxP
      · rw [if_pos hlt]
        exact ih _ (bfsStep_inv fetch config maxD maxP cp cd rest st hq h)
      · rw [if_neg hlt]
        exact h

/-- The invariant holds of every finished build. -/
theorem build_inv (fetch : String → Except DependencyFetchError PackageInfo)
    (config : Config) :
    BuildInv fetch MAX_DEPTH (build_dependency_graph_bfs fetch config) := by
  unfold build_dependency_graph_bfs
  apply bfsLoop_inv
  refine ⟨by simp, by simp [dictKeys], ?_, by simp [dictKeys], ?_, ?_, ?_⟩
  · intro p
    simp [dictKeys]
  · intro pd hpd
    rw [List.mem_singleton] at hpd
    rw [hpd]
    simp [MAX_DEPTH]
  · intro pd hpd
    rw [List.mem_singleton] at hpd
    rw [hpd]
    simp [MAX_DEPTH]
  · intro pl hpl
    cases hpl

/-- Every finished build stops only because the `while` condition failed, and
its visited set never exceeds `MAX_PACKAGES`. -/
theorem build_cap (fetch : String → Except DependencyFetchError PackageInfo)
    (config : Config) :
    ((build_dependency_graph_bfs fetch config).queue = [] ∨
      MAX_PACKAGES ≤
        (build_dependency_graph_bfs fetch config).visited_packages.length) ∧
    (build_dependency_graph_bfs fetch config).visited_packages.length ≤
      MAX_PACKAGES := by
  unfold build_dependency_graph_bfs
  apply bfsLoop_fuel <;> simp [MAX_PACKAGES]

/-- `total_packages = len(self.dependency_graph)` (`stage3.py` line 257). -/
def total_packages (graph : List (String × List String)) : Nat := graph.length

/-- `total_dependencies = sum(len(deps) for deps in ...values())`
(`stage3.py` line 261). -/
def total_dependencies (graph : List (String × List String)) : Nat :=
  (graph.map (fun p => p.2.length)).sum

/-- `leaf_packages = [pkg for pkg, deps in ... if not deps]`
(`stage3.py` line 265). -/
def leaf_packages (graph : List (String × List String)) : List String :=
  (graph.filter (fun p => p.2.isEmpty)).map Prod.fst

/-! ### Concrete scenarios used by the theorems below -/

/-- Fixture record for `left-pad`: `dist-tags.latest = "1.0.0"`, version
`"1.0.0"` with no declared dependencies of any kind. -/
def lpInfo : PackageInfo :=
  { versions := [("1.0.0",
      { dependencies := [], devDependencies := [],
        peerDependencies := [], optionalDependencies := [] })],
    distTagsLatest := some "1.0.0" }

/-- Configuration that targets `left-pad` at `latest` with no filter. -/
def lpCfg : Config :=
  { package_name := "left-pad", version := "latest", filter_substring := "" }

/-- Test-mode metadata source whose fixture holds exactly the `left-pad`
record. -/
def lpFetch : String → Except DependencyFetchError PackageInfo :=
  get_test_package_info (some [("left-pad", lpInfo)])

/-- 299 pairwise distinct package names (`"a"`, `"aa"`, `"aaa"`, ...),
the direct dependencies of the root in the cap-crossing scenario. -/
def bigDeps : List String :=
  (List.range 299).map (fun i => String.mk (List.replicate (i + 1) 'a'))

/-- Version record declaring all 299 `bigDeps` as runtime dependencies. -/
def bigVInfo : VersionInfo :=
  { dependencies := bigDeps.map (fun d => (d, "*")),
    devDependencies := [], peerDependencies := [],
    optionalDependencies := [] }

/-- Metadata record of the root package `"P"` in the cap-crossing scenario. -/
def bigInfo : PackageInfo :=
  { versions := [("1.0.0", bigVInfo)], distTagsLatest := some "1.0.0" }

/-- Configuration targeting `"P"` at version `"1.0.0"` with no filter. -/
def bigCfg : Config :=
  { package_name := "P", version := "1.0.0", filter_substring := "" }

/-- Test-mode metadata source for the cap-crossing scenario. -/
def bigFetch : String → Except DependencyFetchError PackageInfo :=
  get_test_package_info (some [("P", bigInfo)])

/-- The direct cycle `{A: [B], B: [A]}` used by the renderer scenario. -/
def cycleGraph : List (String × List String) := [("A", ["B"]), ("B", ["A"])]

theorem bigDeps_length : bigDeps.length = 299 := by
  simp [bigDeps]

theorem bigDeps_nodup : bigDeps.Nodup := by
  refine List.Nodup.map ?_ (List.nodup_range 299)
  intro i j hij
  have hdata : List.replicate (i + 1) 'a' = List.replicate (j + 1) 'a' :=
    congrArg String.data hij
  have hlen := congrArg List.length hdata
  simp at hlen
  exact hlen

theorem P_notin_bigDeps : "P" ∉ bigDeps := by
  intro h
  simp only [bigDeps, List.mem_map, List.mem_range] at h
  obtain ⟨i, _, hi⟩ := h
  have hdata : List.replicate (i + 1) 'a' = ['P'] := by
    have := congrArg String.data hi
    simpa using this
  rw [List.replicate_succ] at hdata
  injection hdata with h1 _
  exact absurd h1 (by decide)

theorem bigExtract_eq : extract_dependencies bigCfg bigInfo =
    List.insertionSort (fun a b => a.data ≤ b.data) bigDeps := by
  have hstep : extract_dependencies bigCfg bigInfo =
      List.insertionSort (fun a b => a.data ≤ b.data)
        ((dictKeys bigVInfo.dependencies ++ dictKeys bigVInfo.devDependencies ++
          dictKeys bigVInfo.peerDependencies ++
          dictKeys bigVInfo.optionalDependencies).dedup) := rfl
  have hkeys : dictKeys bigVInfo.dependencies = bigDeps := by
    show dictKeys (bigDeps.map (fun d => (d, "*"))) = bigDeps
    unfold dictKeys
    rw [List.map_map]
    exact List.map_id' bigDeps
  have h2 : dictKeys bigVInfo.devDependencies = ([] : List String) := rfl
  have h3 : dictKeys bigVInfo.peerDependencies = ([] : List String) := rfl
  have h4 : dictKeys bigVInfo.optionalDependencies = ([] : List String) := rfl
  rw [hstep, hkeys, h2, h3, h4, List.append_nil, List.append_nil,
    List.append_nil]
  rw [List.dedup_eq_self.mpr bigDeps_nodup]

theorem bigExtract_perm : (extract_dependencies bigCfg bigInfo).Perm bigDeps := by
  rw [bigExtract_eq]
  exact List.perm_insertionSort _ _

/-- Unfolding one iteration of the fuelled loop when the `while` condition
holds. -/
theorem bfsLoop_cons (fetch : String → Except DependencyFetchError PackageInfo)
    (config : Config) (maxD maxP fuel : Nat) (st : BuildState) (cp : String)
    (cd : Nat) (rest : List (String × Nat))
    (hq : st.queue = (cp, cd) :: rest)
    (hlt : st.visited_packages.length < maxP) :
    bfsLoop fetch config maxD maxP (fuel + 1) st =
      bfsLoop fetch config maxD maxP fuel
        (bfsStep fetch config maxD maxP cp cd rest st) := by
  rw [bfsLoop, hq]
  dsimp only
  rw [if_pos hlt]

/-- The cap-crossing build in full: the first (and only) iteration stores the
root's 299 extracted dependencies, admits all of them (bringing the visited
set to exactly `MAX_PACKAGES`), and the loop then exits with all 299
admitted packages still queued and unprocessed. -/
theorem bigBuild_eq :
    build_dependency_graph_bfs bigFetch bigCfg =
      { dependency_graph := [("P", extract_dependencies bigCfg bigInfo)],
        visited_packages := "P" :: extract_dependencies bigCfg bigInfo,
        package_depths := ("P", 0) ::
          (extract_dependencies bigCfg bigInfo).map (fun x => (x, 0 + 1)),
        queue := (extract_dependencies bigCfg bigInfo).map
          (fun x => (x, 0 + 1)) } := by
  have hD := bigExtract_perm
  have hlen : (extract_dependencies bigCfg bigInfo).length = 299 := by
    rw [hD.length_eq, bigDeps_length]
  have hnodup : (extract_dependencies bigCfg bigInfo).Nodup :=
    hD.nodup_iff.mpr bigDeps_nodup
  have hfresh : ∀ x ∈ extract_dependencies bigCfg bigInfo,
      x ∉ (["P"] : List String) := by
    intro x hx
    rw [List.mem_singleton]
    intro hxP
    exact P_notin_bigDeps (hxP ▸ hD.mem_iff.mp hx)
  have hstep : bfsStep bigFetch bigCfg MAX_DEPTH MAX_PACKAGES "P" 0 []
      { dependency_graph := [], visited_packages := ["P"],
        package_depths := [("P", 0)], queue := [("P", 0)] } =
      { dependency_graph := [("P", extract_dependencies bigCfg bigInfo)],
        visited_packages := ["P"] ++ extract_dependencies bigCfg bigInfo,
        package_depths := [("P", 0)] ++
          (extract_dependencies bigCfg bigInfo).map (fun x => (x, 0 + 1)),
        queue := [] ++ (extract_dependencies bigCfg bigInfo).map
          (fun x => (x, 0 + 1)) } := by
    unfold bfsStep
    rw [show bigFetch "P" = Except.ok bigInfo from rfl]
    dsimp only
    rw [if_pos (show (0 : Nat) < MAX_DEPTH by decide)]
    rw [enqueueDeps_all MAX_PACKAGES 0 (extract_dependencies bigCfg bigInfo)
      { visited_packages := ["P"], package_depths := [("P", 0)], queue := [] }
      hnodup hfresh rfl (by rw [hlen]; decide)]
    rfl
  have hbuild : build_dependency_graph_bfs bigFetch bigCfg =
      bfsLoop bigFetch bigCfg MAX_DEPTH MAX_PACKAGES MAX_PACKAGES
        { dependency_graph := [], visited_packages := ["P"],
          package_depths := [("P", 0)], queue := [("P", 0)] } := rfl
  rw [hbuild]
  nth_rewrite 2 [show (MAX_PACKAGES : Nat) = 299 + 1 from rfl]
  rw [bfsLoop_cons bigFetch bigCfg MAX_DEPTH MAX_PACKAGES 299 _ "P" 0 [] rfl
    (by decide), hstep, bfsLoop_stop]
  · rw [List.singleton_append, List.singleton_append, List.nil_append]
  · show ¬ (["P"] ++ extract_dependencies bigCfg bigInfo).length < MAX_PACKAGES
    rw [List.length_append, hlen]
    decide

/-- Keys of a constant-depth pairing map are the packages themselves. -/
theorem dictKeys_map_pair (l : List String) (d : Nat) :
    dictKeys (l.map (fun x => (x, d))) = l := by
  unfold dictKeys
  rw [List.map_map]
  exact List.map_id' l

/-- Order relation used to model Python's `sorted` on strings: code-point
lexicographic comparison of the underlying character lists. -/
instance : IsTrans String (fun a b => a.data ≤ b.data) :=
  ⟨fun _ _ _ hab hbc => le_trans hab hbc⟩

instance : IsTotal String (fun a b => a.data ≤ b.data) :=
  ⟨fun a b => le_total a.data b.data⟩

/-- The stage-3 extractor returns either `[]` (no usable version) or the
sorted, filtered deduplication of some version record's four key sets. -/
theorem extract_dependencies_cases (config : Config) (info : PackageInfo) :
    extract_dependencies config info = [] ∨
    ∃ vi : VersionInfo, extract_dependencies config info =
      List.insertionSort (fun a b => a.data ≤ b.data)
        (if config.filter_substring ≠ "" then
          ((dictKeys vi.dependencies ++ dictKeys vi.devDependencies ++
            dictKeys vi.peerDependencies ++
            dictKeys vi.optionalDependencies).dedup).filter
            (fun dep => ! lowerIn config.filter_substring dep)
        else
          (dictKeys vi.dependencies ++ dictKeys vi.devDependencies ++
            dictKeys vi.peerDependencies ++
            dictKeys vi.optionalDependencies).dedup) := by
  unfold extract_dependencies
  dsimp only
  rcases hvo : lookupA info.versions
      (if config.version = "latest" then info.distTagsLatest.getD "1.0.0"
        else config.version) with _ | vi
  · rcases hvs : info.versions with _ | ⟨⟨v, vi0⟩, restv⟩
    · left
      rfl
    · right
      exact ⟨vi0, rfl⟩
  · right
    exact ⟨vi, rfl⟩

/-- Every successful stage-2 extraction is the sorted, filtered
deduplication of some version record's four key sets (with the inclusion
filter). -/
theorem stage2_extract_ok (config : Config) (info : PackageInfo)
    (out : List String)
    (h : stage2_extract_dependencies config info = .ok out) :
    ∃ vi : VersionInfo, out =
      List.insertionSort (fun a b => a.data ≤ b.data)
        (if config.filter_substring ≠ "" then
          ((dictKeys vi.dependencies ++ dictKeys vi.devDependencies ++
            dictKeys vi.peerDependencies ++
            dictKeys vi.optionalDependencies).dedup).filter
            (fun dep => lowerIn config.filter_substring dep)
        else
          (dictKeys vi.dependencies ++ dictKeys vi.devDependencies ++
            dictKeys vi.peerDependencies ++
            dictKeys vi.optionalDependencies).dedup) := by
  unfold stage2_extract_dependencies at h
  dsimp only at h
  by_cases hv : config.version = "latest"
  · rw [if_pos hv] at h
    by_cases ht : info.distTagsLatest.getD "" = ""
    · rw [if_pos ht] at h
      rcases hgl : (dictKeys info.versions).getLast? with _ | v
      · rw [hgl] at h
        simp at h
      · rw [hgl] at h
        dsimp only at h
        rcases hvi : lookupA info.versions v with _ | vi
        · rw [hvi] at h
          simp at h
        · rw [hvi] at h
          dsimp only at h
          rw [Except.ok.injEq] at h
          exact ⟨vi, h.symm⟩
    · rw [if_neg ht] at h
      dsimp only at h
      rcases hvi : lookupA info.versions (info.distTagsLatest.getD "") with _ | vi
      · rw [hvi] at h
        simp at h
      · rw [hvi] at h
        dsimp only at h
        rw [Except.ok.injEq] at h
        exact ⟨vi, h.symm⟩
  · rw [if_neg hv] at h
    dsimp only at h
    rcases hvi : lookupA info.versions config.version with _ | vi
    · rw [hvi] at h
      simp at h
    · rw [hvi] at h
      dsimp only at h
      rw [Except.ok.injEq] at h
      exact ⟨vi, h.symm⟩

/-- Record used by the filter scenarios: version `1.0.0` declaring `apple`
and `Box`. -/
def fInfo2 : PackageInfo :=
  { versions := [("1.0.0",
      { dependencies := [("apple", "*"), ("Box", "*")], devDependencies := [],
        peerDependencies := [], optionalDependencies := [] })],
    distTagsLatest := some "1.0.0" }

/-- Configuration with the non-empty filter substring `"app"`. -/
def fCfg : Config :=
  { package_name := "x", version := "1.0.0", filter_substring := "app" }

/-- A metadata source that always fails. -/
def errFetch : String → Except DependencyFetchError PackageInfo :=
  fun _ => .error ⟨"Ошибка получения пакета"⟩

/-- A one-package state about to process `"E"` at depth 0. -/
def errState : BuildState :=
  { dependency_graph := [], visited_packages := ["E"],
    package_depths := [("E", 0)], queue := [("E", 0)] }

/-- A one-package state about to process `"X"` at exactly `MAX_DEPTH`. -/
def st4 : BuildState :=
  { dependency_graph := [], visited_packages := ["X"],
    package_depths := [("X", MAX_DEPTH)], queue := [("X", MAX_DEPTH)] }

/-! ### The claims -/

/-- C10: for every metadata source and configuration, the number of entries
in the final `DependencyMap` is at most `MAX_PACKAGES` (300): every loop
iteration requires `|VisitedSet| < 300` before running, each iteration writes
one graph entry for a package of the visited set, graph keys are pairwise
distinct, and the visited set never exceeds 300 — a strict hard cap. -/
theorem c10_graph_size_hard_cap
    (fetch : String → Except DependencyFetchError PackageInfo)
    (config : Config) :
    (build_dependency_graph_bfs fetch config).dependency_graph.length ≤
      MAX_PACKAGES := by
  have hinv := build_inv fetch config
  have hcap := (build_cap fetch config).2
  have hkn : (dictKeys
      (build_dependency_graph_bfs fetch config).dependency_graph).Nodup :=
    List.Nodup.of_append_right hinv.keys_nodup
  have hsub : dictKeys (build_dependency_graph_bfs fetch config).dependency_graph ⊆
      (build_dependency_graph_bfs fetch config).visited_packages := by
    intro p hp
    exact (hinv.visited_cover p).mpr (Or.inr hp)
  have hlen := (hkn.subperm hsub).length_le
  have hkl : (dictKeys
      (build_dependency_graph_bfs fetch config).dependency_graph).length =
      (build_dependency_graph_bfs fetch config).dependency_graph.length := by
    simp [dictKeys]
  omega

/-- C1 (counterexample to the claim as stated): at the cap-crossing input —
root `"P"` whose fixture record declares 299 dependencies — the builder
crosses `MAX_PACKAGES` while admitting the root's children and then exits
immediately: all 299 admitted pairs remain in the queue unprocessed, the
graph keeps exactly one entry, and the depth map holds all 300 names.  The
queue is not drained and the graph never exceeds the cap. -/
theorem c1_counterexample :
    (build_dependency_graph_bfs bigFetch bigCfg).queue.length = 299 ∧
    (build_dependency_graph_bfs bigFetch bigCfg).dependency_graph.length = 1 ∧
    (build_dependency_graph_bfs bigFetch bigCfg).package_depths.length = 300 := by
  have hlen := bigExtract_perm.length_eq
  rw [bigDeps_length] at hlen
  rw [bigBuild_eq]
  dsimp only
  refine ⟨?_, ?_, ?_⟩
  · rw [List.length_map, hlen]
  · rw [List.length_singleton]
  · rw [List.length_cons, List.length_map, hlen]

/-- C1 (amended): the loop condition re-checks the visited bound, so once
`|VisitedSet|` reaches `MAX_PACKAGES` the traversal stops entirely — it does
NOT drain the queue.  Whenever the build ends with a non-empty queue, the
visited set is pinned at exactly `MAX_PACKAGES` and none of the still-queued
packages has an entry in the final `DependencyMap`. -/
theorem c1_cap_stops_processing
    (fetch : String → Except DependencyFetchError PackageInfo)
    (config : Config)
    (h : (build_dependency_graph_bfs fetch config).queue ≠ []) :
    (build_dependency_graph_bfs fetch config).visited_packages.length =
      MAX_PACKAGES ∧
    ∀ p ∈ dictKeys (build_dependency_graph_bfs fetch config).queue,
      p ∉ dictKeys (build_dependency_graph_bfs fetch config).dependency_graph := by
  obtain ⟨hor, hle⟩ := build_cap fetch config
  have hge := hor.resolve_left h
  refine ⟨le_antisymm hle hge, ?_⟩
  intro p hpq hpg
  exact List.disjoint_of_nodup_append (build_inv fetch config).keys_nodup
    hpq hpg

/-- Witness for `c1_cap_stops_processing` at the cap-crossing input. -/
theorem c1_witness :
    (build_dependency_graph_bfs bigFetch bigCfg).queue ≠ [] ∧
    (build_dependency_graph_bfs bigFetch bigCfg).visited_packages.length =
      MAX_PACKAGES := by
  have hlen := bigExtract_perm.length_eq
  rw [bigDeps_length] at hlen
  have hne : (build_dependency_graph_bfs bigFetch bigCfg).queue ≠ [] := by
    rw [bigBuild_eq]
    dsimp only
    intro hc
    have hlc := congrArg List.length hc
    rw [List.length_map, hlen, List.length_nil] at hlc
    exact absurd hlc (by decide)
  exact ⟨hne, (c1_cap_stops_processing bigFetch bigCfg hne).1⟩

/-- C2 (counterexample to the claim as stated): in the cap-crossing build the
package `"a"` has a recorded depth but no stored dependency list, so the two
key sets differ. -/
theorem c2_counterexample :
    "a" ∈ dictKeys (build_dependency_graph_bfs bigFetch bigCfg).package_depths ∧
    "a" ∉ dictKeys (build_dependency_graph_bfs bigFetch bigCfg).dependency_graph := by
  have haD : "a" ∈ extract_dependencies bigCfg bigInfo := by
    rw [bigExtract_perm.mem_iff]
    refine List.mem_map.mpr ⟨0, ?_, ?_⟩
    · simp
    · decide
  rw [bigBuild_eq]
  constructor
  · have hkeys : dictKeys ((("P", 0) : String × Nat) ::
        (extract_dependencies bigCfg bigInfo).map (fun x => (x, 0 + 1))) =
        "P" :: extract_dependencies bigCfg bigInfo := by
      unfold dictKeys
      rw [List.map_cons, List.map_map]
      exact congrArg (List.cons "P") (List.map_id' _)
    rw [hkeys]
    exact List.mem_cons_of_mem _ haD
  · intro hc
    have : "a" = "P" := by
      simp only [dictKeys, List.map_cons, List.map_nil, List.mem_singleton] at hc
      exact hc
    exact absurd this (by decide)

/-- C2 (amended): the graph's key set is always contained in the depth map's
key set, and the two coincide exactly when the build ends with its queue
drained — if the queue drains the sets are equal, and if it does not, every
still-queued package has a recorded depth but no stored dependency list, so
the sets differ. -/
theorem c2_keys_agree_when_drained
    (fetch : String → Except DependencyFetchError PackageInfo)
    (config : Config) :
    (∀ p ∈ dictKeys (build_dependency_graph_bfs fetch config).dependency_graph,
      p ∈ dictKeys (build_dependency_graph_bfs fetch config).package_depths) ∧
    ((build_dependency_graph_bfs fetch config).queue = [] →
      ∀ p, p ∈ dictKeys
          (build_dependency_graph_bfs fetch config).dependency_graph ↔
        p ∈ dictKeys (build_dependency_graph_bfs fetch config).package_depths) ∧
    (∀ p ∈ dictKeys (build_dependency_graph_bfs fetch config).queue,
      p ∈ dictKeys (build_dependency_graph_bfs fetch config).package_depths ∧
      p ∉ dictKeys (build_dependency_graph_bfs fetch config).dependency_graph) ∧
    ((build_dependency_graph_bfs fetch config).queue ≠ [] →
      ¬ ∀ p, p ∈ dictKeys
          (build_dependency_graph_bfs fetch config).dependency_graph ↔
        p ∈ dictKeys (build_dependency_graph_bfs fetch config).package_depths) := by
  have hinv := build_inv fetch config
  have hqueue : ∀ p ∈ dictKeys (build_dependency_graph_bfs fetch config).queue,
      p ∈ dictKeys (build_dependency_graph_bfs fetch config).package_depths ∧
      p ∉ dictKeys (build_dependency_graph_bfs fetch config).dependency_graph := by
    intro p hp
    refine ⟨?_, ?_⟩
    · rw [hinv.depths_eq]
      exact (hinv.visited_cover p).mpr (Or.inl hp)
    · intro hpg
      exact List.disjoint_of_nodup_append hinv.keys_nodup hp hpg
  refine ⟨?_, ?_, hqueue, ?_⟩
  · intro p hp
    rw [hinv.depths_eq]
    exact (hinv.visited_cover p).mpr (Or.inr hp)
  · intro hq p
    rw [hinv.depths_eq]
    have hcov := hinv.visited_cover p
    rw [hq] at hcov
    simp only [dictKeys, List.map_nil, List.not_mem_nil, false_or] at hcov
    exact hcov.symm
  · intro hq hiff
    rcases hqe : (build_dependency_graph_bfs fetch config).queue with _ | ⟨⟨cp, cd⟩, rest⟩
    · exact hq hqe
    · have hcpq : cp ∈ dictKeys (build_dependency_graph_bfs fetch config).queue := by
        rw [hqe]
        exact List.mem_map.mpr ⟨(cp, cd), List.mem_cons_self _ _, rfl⟩
      obtain ⟨hdep, hng⟩ := hqueue cp hcpq
      exact hng ((hiff cp).mpr hdep)

/-- Witness for `c2_keys_agree_when_drained`: the `left-pad` build drains its
queue and its key sets agree; the cap-crossing build does not, and its key
sets differ. -/
theorem c2_witness :
    ((build_dependency_graph_bfs lpFetch lpCfg).queue = [] ∧
      ("left-pad" ∈ dictKeys
          (build_dependency_graph_bfs lpFetch lpCfg).dependency_graph ↔
        "left-pad" ∈ dictKeys
          (build_dependency_graph_bfs lpFetch lpCfg).package_depths)) ∧
    ((build_dependency_graph_bfs bigFetch bigCfg).queue ≠ [] ∧
      ¬ ∀ p, p ∈ dictKeys
          (build_dependency_graph_bfs bigFetch bigCfg).dependency_graph ↔
        p ∈ dictKeys (build_dependency_graph_bfs bigFetch bigCfg).package_depths) := by
  have hlen := bigExtract_perm.length_eq
  rw [bigDeps_length] at hlen
  have hne : (build_dependency_graph_bfs bigFetch bigCfg).queue ≠ [] := by
    rw [bigBuild_eq]
    dsimp only
    intro hc
    have hlc := congrArg List.length hc
    rw [List.length_map, hlen, List.length_nil] at hlc
    exact absurd hlc (by decide)
  exact ⟨⟨by decide,
      (c2_keys_agree_when_drained lpFetch lpCfg).2.1 (by decide) "left-pad"⟩,
    ⟨hne, (c2_keys_agree_when_drained bigFetch bigCfg).2.2.2 hne⟩⟩

/-- C3 (counterexample to the claim as stated): the stage-2 extractor — one
of the two extraction routines the claim covers — KEEPS the names matching
the filter: with filter `"app"` its output is `["apple"]`, which contains
`"app"` case-insensitively. -/
theorem c3_counterexample :
    stage2_extract_dependencies fCfg fInfo2 = .ok ["apple"] ∧
    lowerIn fCfg.filter_substring "apple" = true := by
  constructor
  · rfl
  · decide

/-- C3 (amended): the two staged extractors implement opposite filter
semantics.  The stage-3 (core) extractor excludes matches: with a non-empty
configured substring, no name in its output contains the substring
case-insensitively.  The stage-2 variant includes matches: every name in a
successful output contains the substring case-insensitively. -/
theorem c3_filter_semantics :
    (∀ (config : Config) (info : PackageInfo), config.filter_substring ≠ "" →
      ∀ dep ∈ extract_dependencies config info,
        lowerIn config.filter_substring dep = false) ∧
    (∀ (config : Config) (info : PackageInfo) (out : List String),
      config.filter_substring ≠ "" →
      stage2_extract_dependencies config info = .ok out →
      ∀ dep ∈ out, lowerIn config.filter_substring dep = true) := by
  constructor
  · intro config info hfs dep hdep
    rcases extract_dependencies_cases config info with h | ⟨vi, h⟩
    · rw [h] at hdep
      cases hdep
    · rw [h, if_pos hfs] at hdep
      rw [List.mem_insertionSort] at hdep
      have hpred := (List.mem_filter.mp hdep).2
      simpa using hpred
  · intro config info out hfs h2 dep hdep
    obtain ⟨vi, hout⟩ := stage2_extract_ok config info out h2
    rw [hout, if_pos hfs] at hdep
    rw [List.mem_insertionSort] at hdep
    exact (List.mem_filter.mp hdep).2

/-- Witness for `c3_filter_semantics`: the surviving stage-3 output name
`"Box"` does not contain `"app"`; the stage-2 output name `"apple"` does. -/
theorem c3_witness :
    (fCfg.filter_substring ≠ "" ∧ "Box" ∈ extract_dependencies fCfg fInfo2 ∧
      lowerIn fCfg.filter_substring "Box" = false) ∧
    (stage2_extract_dependencies fCfg fInfo2 = .ok ["apple"] ∧
      lowerIn fCfg.filter_substring "apple" = true) :=
  ⟨⟨by decide, by decide,
      c3_filter_semantics.1 fCfg fInfo2 (by decide) "Box" (by decide)⟩,
    ⟨rfl, c3_filter_semantics.2 fCfg fInfo2 ["apple"] (by decide) rfl "apple"
      (by decide)⟩⟩

/-- C4: no `(package, depth)` pair with `depth > MAX_DEPTH` is ever enqueued
(the depth map records every enqueued pair's depth, and all recorded depths
are at most `MAX_DEPTH`); and a package dequeued at exactly `MAX_DEPTH`
still gets its extracted dependency list stored but enqueues no children
(the iteration only stores the list and pops the queue, leaving the visited
set and the depth map untouched). -/
theorem c4_depth_boundary
    (fetch : String → Except DependencyFetchError PackageInfo)
    (config : Config) :
    (∀ pd ∈ (build_dependency_graph_bfs fetch config).package_depths,
      pd.2 ≤ MAX_DEPTH) ∧
    (∀ (st : BuildState) (cp : String) (rest : List (String × Nat))
      (info : PackageInfo) (fuel : Nat),
      st.queue = (cp, MAX_DEPTH) :: rest →
      fetch cp = .ok info →
      st.visited_packages.length < MAX_PACKAGES →
      bfsLoop fetch config MAX_DEPTH MAX_PACKAGES (fuel + 1) st =
        bfsLoop fetch config MAX_DEPTH MAX_PACKAGES fuel
          { dependency_graph := dictInsert st.dependency_graph cp
              (extract_dependencies config info),
            visited_packages := st.visited_packages,
            package_depths := st.package_depths,
            queue := rest }) := by
  constructor
  · exact fun pd hpd => (build_inv fetch config).depths_le pd hpd
  · intro st cp rest info fuel hq hf hlt
    rw [bfsLoop_cons fetch config MAX_DEPTH MAX_PACKAGES fuel st cp MAX_DEPTH
      rest hq hlt]
    congr 1
    unfold bfsStep
    rw [hf]
    dsimp only
    rw [if_neg (lt_irrefl MAX_DEPTH)]

/-- Witness for `c4_depth_boundary`: the root depth 0 recorded by the
`left-pad` build obeys the bound, and a concrete state whose head sits at
depth `MAX_DEPTH` stores its list and enqueues nothing. -/
theorem c4_witness :
    ((("left-pad", 0) : String × Nat) ∈
        (build_dependency_graph_bfs lpFetch lpCfg).package_depths ∧
      ((("left-pad", 0) : String × Nat)).2 ≤ MAX_DEPTH) ∧
    bfsLoop lpFetch lpCfg MAX_DEPTH MAX_PACKAGES 1 st4 =
      bfsLoop lpFetch lpCfg MAX_DEPTH MAX_PACKAGES 0
        { dependency_graph := dictInsert st4.dependency_graph "X"
            (extract_dependencies lpCfg defaultTestRecord),
          visited_packages := st4.visited_packages,
          package_depths := st4.package_depths,
          queue := [] } :=
  ⟨⟨by decide, (c4_depth_boundary lpFetch lpCfg).1 ("left-pad", 0) (by decide)⟩,
    (c4_depth_boundary lpFetch lpCfg).2 st4 "X" [] defaultTestRecord 0 rfl rfl
      (by decide)⟩

/-- C5: the renderer is a total function (its well-founded recursion on the
graph keys not yet on the branch is accepted by Lean, which is the
termination proof), a node already on the current branch renders as the
single terminal cycle-marker line without further expansion, and on the
direct cycle `{A: [B], B: [A]}` rooted at `A` the render is exactly `A`, its
child `B`, and `B`'s child `A` marked as a cycle. -/
theorem c5_render_cycle_safe :
    (∀ (graph : List (String × List String)) (package pfx : String)
      (is_last : Bool) (visited : List String), package ∈ visited →
      build_pretty_tree_limited graph package pfx is_last visited =
        [pfx ++ "└── " ++ package ++ " [ЦИКЛ]"]) ∧
    build_pretty_tree_limited cycleGraph "A" "" true [] =
      ["└── A", "    └── B", "        └── A [ЦИКЛ]"] := by
  constructor
  · intro graph package pfx is_last visited h
    rw [build_pretty_tree_limited]
    exact dif_pos h
  · simp [build_pretty_tree_limited, renderChildren, cycleGraph, dictGet,
      lookupA]

/-- Witness for `c5_render_cycle_safe`: a node already on the branch is a
single cycle-marker line. -/
theorem c5_witness :
    "A" ∈ (["A"] : List String) ∧
    build_pretty_tree_limited cycleGraph "A" "  " true ["A"] =
      ["  " ++ "└── " ++ "A" ++ " [ЦИКЛ]"] :=
  ⟨by decide, c5_render_cycle_safe.1 cycleGraph "A" "  " true ["A"] (by decide)⟩

/-- C6: when the metadata fetch of the dequeued package fails, the iteration
records an empty dependency list for it and the loop continues with the rest
of the queue — the failure is absorbed, not propagated. -/
theorem c6_fetch_failure_nonfatal
    (fetch : String → Except DependencyFetchError PackageInfo)
    (config : Config) (st : BuildState) (cp : String) (cd : Nat)
    (rest : List (String × Nat)) (err : DependencyFetchError) (fuel : Nat)
    (hq : st.queue = (cp, cd) :: rest)
    (hf : fetch cp = .error err)
    (hlt : st.visited_packages.length < MAX_PACKAGES) :
    bfsLoop fetch config MAX_DEPTH MAX_PACKAGES (fuel + 1) st =
      bfsLoop fetch config MAX_DEPTH MAX_PACKAGES fuel
        { dependency_graph := dictInsert st.dependency_graph cp [],
          visited_packages := st.visited_packages,
          package_depths := st.package_depths,
          queue := rest } := by
  rw [bfsLoop_cons fetch config MAX_DEPTH MAX_PACKAGES fuel st cp cd rest hq
    hlt]
  congr 1
  unfold bfsStep
  rw [hf]

/-- Witness for `c6_fetch_failure_nonfatal` with an always-failing source. -/
theorem c6_witness :
    bfsLoop errFetch lpCfg MAX_DEPTH MAX_PACKAGES 1 errState =
      bfsLoop errFetch lpCfg MAX_DEPTH MAX_PACKAGES 0
        { dependency_graph := dictInsert errState.dependency_graph "E" [],
          visited_packages := errState.visited_packages,
          package_depths := errState.package_depths,
          queue := [] } :=
  c6_fetch_failure_nonfatal errFetch lpCfg errState "E" 0 []
    ⟨"Ошибка получения пакета"⟩ 0 rfl rfl (by decide)

/-- C7 (counterexample to the claim as stated): the local-fixture
implementation does NOT fail on an unknown package name — it fabricates a
default record instead of raising. -/
theorem c7_counterexample :
    get_test_package_info (some []) "ghost" = .ok defaultTestRecord := rfl

/-- C7 (amended): an unknown name raises `DependencyFetchError` in the
remote-registry implementation (uniformly with transport errors), but the
local-fixture implementation synthesizes the default record
`{versions: {"1.0.0": no deps}, dist-tags.latest: "1.0.0"}` for unknown
names; it raises only when the fixture file itself is unreadable or
malformed. -/
theorem c7_unknown_name_behaviour :
    (∀ (registry : String → RegistryResponse) (package_name : String),
      registry package_name = .notFound →
      ∃ err, get_real_package_info registry package_name = .error err) ∧
    (∀ (test_data : List (String × PackageInfo)) (package_name : String),
      lookupA test_data package_name = none →
      get_test_package_info (some test_data) package_name =
        .ok defaultTestRecord) ∧
    (∀ package_name : String, ∃ err,
      get_test_package_info none package_name = .error err) := by
  refine ⟨?_, ?_, ?_⟩
  · intro registry pn h
    unfold get_real_package_info
    rw [h]
    exact ⟨_, rfl⟩
  · intro td pn h
    unfold get_test_package_info
    dsimp only
    rw [h]
  · intro pn
    exact ⟨_, rfl⟩

/-- Witness for `c7_unknown_name_behaviour` at concrete unknown names. -/
theorem c7_witness :
    ((fun _ : String => RegistryResponse.notFound) "ghost" =
        RegistryResponse.notFound ∧
      ∃ err, get_real_package_info (fun _ => RegistryResponse.notFound)
        "ghost" = .error err) ∧
    (lookupA ([] : List (String × PackageInfo)) "ghost" = none ∧
      get_test_package_info (some []) "ghost" = .ok defaultTestRecord) :=
  ⟨⟨rfl, c7_unknown_name_behaviour.1 (fun _ => RegistryResponse.notFound)
      "ghost" rfl⟩,
    ⟨rfl, c7_unknown_name_behaviour.2.1 [] "ghost" rfl⟩⟩

/-- C8: the stage-3 extractor's output is sorted ascending under the
case-sensitive (code-point) lexicographic order on strings and contains no
duplicate names, for every configuration and record. -/
theorem c8_sorted_nodup (config : Config) (info : PackageInfo) :
    List.Sorted (· ≤ ·) (extract_dependencies config info) ∧
    (extract_dependencies config info).Nodup := by
  rcases extract_dependencies_cases config info with h | ⟨vi, h⟩
  · rw [h]
    exact ⟨List.sorted_nil, List.nodup_nil⟩
  · rw [h]
    constructor
    · have hs := List.sorted_insertionSort (fun a b : String => a.data ≤ b.data)
        (if config.filter_substring ≠ "" then
          ((dictKeys vi.dependencies ++ dictKeys vi.devDependencies ++
            dictKeys vi.peerDependencies ++
            dictKeys vi.optionalDependencies).dedup).filter
            (fun dep => ! lowerIn config.filter_substring dep)
        else
          (dictKeys vi.dependencies ++ dictKeys vi.devDependencies ++
            dictKeys vi.peerDependencies ++
            dictKeys vi.optionalDependencies).dedup)
      refine List.Pairwise.imp ?_ hs
      intro a b hab
      rw [String.le_iff_toList_le]
      exact hab
    · have hperm := List.perm_insertionSort (fun a b : String => a.data ≤ b.data)
        (if config.filter_substring ≠ "" then
          ((dictKeys vi.dependencies ++ dictKeys vi.devDependencies ++
            dictKeys vi.peerDependencies ++
            dictKeys vi.optionalDependencies).dedup).filter
            (fun dep => ! lowerIn config.filter_substring dep)
        else
          (dictKeys vi.dependencies ++ dictKeys vi.devDependencies ++
            dictKeys vi.peerDependencies ++
            dictKeys vi.optionalDependencies).dedup)
      refine hperm.nodup_iff.mpr ?_
      by_cases hf : config.filter_substring ≠ ""
      · rw [if_pos hf]
        exact (List.nodup_dedup _).filter _
      · rw [if_neg hf]
        exact List.nodup_dedup _

/-- C9: with the `left-pad` fixture (latest `1.0.0`, no dependencies), the
build yields the one-entry graph `{"left-pad": []}` with zero edges, and the
statistics report 1 package, 0 dependencies, and 1 leaf package. -/
theorem c9_left_pad_scenario :
    (build_dependency_graph_bfs lpFetch lpCfg).dependency_graph =
      [("left-pad", [])] ∧
    total_packages
      (build_dependency_graph_bfs lpFetch lpCfg).dependency_graph = 1 ∧
    total_dependencies
      (build_dependency_graph_bfs lpFetch lpCfg).dependency_graph = 0 ∧
    (leaf_packages
      (build_dependency_graph_bfs lpFetch lpCfg).dependency_graph).length = 1 := by
  decide

end MireaConf
